import Mathlib

/-!
# Verification of the FAFWHK-Back incremental ingestion engine

A shallow embedding of the paper-ingestion engine in `src/main.py` and of the
user-preference toggles in `src/reco_algo.py`, with theorems settling the
behavioural claims of the specification.

Modelling conventions:
* Python strings are Lean `String`; record identifiers are strings.
* Python `datetime.strptime(s, "%Y-%m-%d")` is modelled by `parseDate`,
  which follows CPython's `_strptime` regexes: exactly four digits for the
  year, one or two digits for month (1..12) and day, and calendar-day
  validation (including leap years) performed by the `datetime` constructor.
* `datetime.now()` is a parameter `today : Date`.  The code compares a
  midnight timestamp `strptime(d)` against `now` with `>`; the result of
  that comparison equals the strict comparison of the calendar days, since
  the time-of-day component of `now` is nonnegative.
* Python sets are lists compared by membership; Python dicts keyed by date
  strings are association lists.
* File contents and the network are explicit data: a fetch attempt is a
  list of pages, each page a list of records; the persisted checkpoint is a
  state component updated where the code calls `save_all_processed_ids`.
* Exceptions are explicit where they can escape: `load_all_processed_ids`
  returns `Except PyError (...)`, with `Except.error` marking an exception
  its `except (json.JSONDecodeError, OSError)` clause does not catch.
-/

/-- A calendar date as produced by `datetime.strptime(s, "%Y-%m-%d")`. -/
structure Date where
  y : Nat
  m : Nat
  d : Nat
deriving DecidableEq, Repr

/-- Gregorian leap-year rule, as implemented by Python's `datetime`. -/
def isLeap (y : Nat) : Bool :=
  (y % 4 == 0 && y % 100 != 0) || (y % 400 == 0)

/-- Number of days in a month, as validated by Python's `datetime` constructor. -/
def daysInMonth (y m : Nat) : Nat :=
  if m = 2 then (if isLeap y then 29 else 28)
  else if m = 4 || m = 6 || m = 9 || m = 11 then 30
  else 31

/-- Strict comparison of `datetime` values that are both at midnight:
lexicographic on (year, month, day).  Models Python's `datetime.__gt__`
applied to two `strptime` results. -/
def dateLt (a b : Date) : Prop :=
  a.y < b.y ∨ (a.y = b.y ∧ (a.m < b.m ∨ (a.m = b.m ∧ a.d < b.d)))

instance (a b : Date) : Decidable (dateLt a b) := by
  unfold dateLt; infer_instance

/-- Non-strict date order (used only in invariants, not in the code). -/
def dateLe (a b : Date) : Prop := ¬ dateLt b a

instance (a b : Date) : Decidable (dateLe a b) := by
  unfold dateLe; infer_instance

/-- Split a character list at every occurrence of `sep`; an empty input
yields one empty field, matching the field structure the `strptime` regex
sees around the literal dashes of the format string. -/
def splitOnChar (sep : Char) : List Char → List Char → List (List Char)
  | [], acc => [acc.reverse]
  | c :: rest, acc =>
    if c = sep then acc.reverse :: splitOnChar sep rest []
    else splitOnChar sep rest (c :: acc)

/-- Is this character an ASCII decimal digit? -/
def isDigitChar (c : Char) : Bool := '0' ≤ c && c ≤ '9'

/-- Numeric value of a digit string (most significant first). -/
def digitsToNat (cs : List Char) : Nat :=
  cs.foldl (fun acc c => acc * 10 + (c.toNat - 48)) 0

/-- `datetime.strptime(s, "%Y-%m-%d")`, returning `none` where Python raises
`ValueError`.  CPython's `_strptime` matches `%Y` against exactly four
digits, `%m` and `%d` against one or two digits beginning with a nonzero
value pattern, and the `datetime` constructor then rejects out-of-range
months and days (including day-of-month and leap-year validation). -/
def parseDate (s : String) : Option Date :=
  match splitOnChar '-' s.data [] with
  | [ys, ms, ds] =>
    if ys.length = 4 && ys.all isDigitChar
       && decide (1 ≤ ms.length) && decide (ms.length ≤ 2) && ms.all isDigitChar
       && decide (1 ≤ ds.length) && decide (ds.length ≤ 2) && ds.all isDigitChar then
      let yn := digitsToNat ys
      let mn := digitsToNat ms
      let dn := digitsToNat ds
      if 1 ≤ mn && mn ≤ 12 && 1 ≤ dn && dn ≤ daysInMonth yn mn then
        some ⟨yn, mn, dn⟩
      else none
    else none
  | _ => none

/-- `is_future_date(date_str)` from `src/main.py`: true if the string is a
future date, and also true when the format is invalid (`ValueError` branch),
so that invalid dates are skipped. -/
def is_future_date (today : Date) (date_str : String) : Bool :=
  match parseDate date_str with
  | some d => decide (dateLt today d)
  | none => true

/-- Configuration constants of `src/main.py`. -/
def QUERY : String := "biomedical | (bio medical)"

/-- The requested field list. -/
def FIELDS : String :=
  "publicationDate,year,title,openAccessPdf,s2FieldsOfStudy,abstract,journal"

/-- The configured starting date. -/
def INITIAL_DATE : String := "2024-1-15"

/-- `build_url(start_date)` from `src/main.py`, with `datetime.now()`
rendered as the parameter `today_str`. -/
def build_url (today_str : String) (start_date : String) : String :=
  "http://api.semanticscholar.org/graph/v1/" ++
  "paper/search/bulk?query=" ++ QUERY ++
  "&fields=" ++ FIELDS ++
  "&publicationDateOrYear=" ++ start_date ++ ":" ++ today_str ++
  "&sort=publicationDate:asc:"

/-- One record returned by the upstream API, as consumed by `fetch_papers`:
`paper.get("paperId")` and `paper.get("publicationDate")`.  A missing or
JSON-`null` field is `none`. -/
structure Paper where
  paperId : Option String
  publicationDate : Option String
deriving DecidableEq, Repr

/-- Python truthiness of an optional string (`if pub_date:`):
false for `None` and for the empty string. -/
def optTruthy : Option String → Bool
  | none => false
  | some s => s ≠ ""

/-- Insert an id into the per-date map, mirroring
`if date_key not in processed_ids_by_date: ... = set()` followed by
`processed_ids_by_date[date_key].add(paper_id)`. -/
def addToDate : List (String × List String) → String → String → List (String × List String)
  | [], key, pid => [(key, [pid])]
  | (k, ids) :: rest, key, pid =>
    if k = key then (k, pid :: ids) :: rest
    else (k, ids) :: addToDate rest key pid

/-- The union of all id-buckets of the per-date map (the code's
`global_set`, rebuilt by `load_all_processed_ids`). -/
def unionValues (m : List (String × List String)) : List String :=
  m.foldr (fun kv acc => kv.2 ++ acc) []

/-- The mutable state of `fetch_papers`: the committed cursor `newest_val`,
the candidate `pending_newest_val`, the in-memory dedupe structures, the
append-only corpus file, and the last persisted content of
`processed_ids.json` (the `saved` field). -/
structure EngineState where
  newest_val : String
  pending_newest_val : String
  processed_ids_by_date : List (String × List String)
  all_processed_ids : List String
  corpus : List Paper
  saved : List (String × List String)
deriving DecidableEq, Repr

/-- Append an accepted paper: write it to `OUTPUT_FILE`, add its id to
`all_processed_ids`, and record it in `processed_ids_by_date` under
`date_key`. -/
def appendPaper (st : EngineState) (p : Paper) (pid : String) (date_key : String) :
    EngineState :=
  { st with
    corpus := st.corpus ++ [p]
    all_processed_ids := pid :: st.all_processed_ids
    processed_ids_by_date := addToDate st.processed_ids_by_date date_key pid }

/-- The body of `for paper in papers:` in `fetch_papers` (src/main.py lines
196-239): skip records without an id, skip already-processed ids, skip
future or invalid dates, advance `pending_newest_val` when the date exceeds
it (skipping the record if either date string fails to parse, the
`ValueError` branch), then append and mark processed. -/
def processPaper (today : Date) (st : EngineState) (p : Paper) : EngineState :=
  match p.paperId with
  | none => st
  | some pid =>
    if pid = "" then st
    else if pid ∈ st.all_processed_ids then st
    else if optTruthy p.publicationDate &&
            is_future_date today (p.publicationDate.getD "") then st
    else
      match p.publicationDate with
      | none => appendPaper st p pid "unknown"
      | some pd =>
        if pd = "" then appendPaper st p pid "unknown"
        else
          match parseDate pd, parseDate st.pending_newest_val with
          | some dObj, some pObj =>
            let st' := if dateLt pObj dObj
                       then { st with pending_newest_val := pd }
                       else st
            appendPaper st' p pid pd
          | _, _ => st

/-- Process one page of results, then persist the id map
(`save_all_processed_ids(processed_ids_by_date)` after each batch). -/
def processPage (today : Date) (st : EngineState) (papers : List Paper) : EngineState :=
  let st' := papers.foldl (processPaper today) st
  { st' with saved := st'.processed_ids_by_date }

/-- Process a whole fetch attempt: the pages delivered by following
continuation tokens until none remains. -/
def runPages (today : Date) (st : EngineState) (pages : List (List Paper)) : EngineState :=
  pages.foldl (processPage today) st

/-- The promotion step (src/main.py lines 170-174), taken when
`now - last_update_time >= UPDATE_INTERVAL`: if the pending value differs,
commit it into `newest_val`. -/
def promoteTick (st : EngineState) : EngineState :=
  if st.pending_newest_val ≠ st.newest_val
  then { st with newest_val := st.pending_newest_val }
  else st

/-- One iteration of the outer `while running:` loop, as observed data:
whether the time-based promotion gate fired, and the pages the fetch
attempt delivered (an aborted attempt delivers the pages processed before
the error). -/
structure Iteration where
  promote : Bool
  pages : List (List Paper)
deriving Repr

/-- Run one outer-loop iteration: promotion check first, then fetch and
process using the (frozen) committed cursor. -/
def runIteration (today : Date) (st : EngineState) (it : Iteration) : EngineState :=
  let st1 := if it.promote then promoteTick st else st
  runPages today st1 it.pages

/-- Run a sequence of outer-loop iterations. -/
def runEngine (today : Date) (st : EngineState) (its : List Iteration) : EngineState :=
  its.foldl (runIteration today) st

/-- A parsed JSON value, the result of a successful `json.load`. -/
inductive Json where
  | null : Json
  | bool : Bool → Json
  | num : Int → Json
  | str : String → Json
  | arr : List Json → Json
  | obj : List (String × Json) → Json

/-- Key lookup in a JSON object.  `json.load` builds a Python dict, where a
later duplicate key overrides an earlier one, so the last binding wins. -/
def lookupLast (fields : List (String × Json)) (key : String) : Option Json :=
  fields.foldl (fun acc kv => if kv.1 = key then some kv.2 else acc) none

/-- The string elements of a JSON array (`set(id_list)`); upstream paper ids
are strings, and a non-string element can never equal a string id, so only
the string members are relevant to dedupe membership. -/
def stringsOf : List Json → List String
  | [] => []
  | Json.str s :: rest => s :: stringsOf rest
  | _ :: rest => stringsOf rest

/-- The Python exceptions that `load_all_processed_ids` can raise past its
`except (json.JSONDecodeError, OSError)` clause (src/main.py line 89):
`TypeError` from `set(id_list)` on a list holding an unhashable element
(line 78), and `UnicodeDecodeError` — a `ValueError` that is not a
`JSONDecodeError` — from `json.load` reading a non-UTF-8 file (line 64). -/
inductive PyError where
  | typeError : PyError
  | unicodeDecodeError : PyError
deriving DecidableEq, Repr

/-- The state of `PROCESSED_IDS_FILE` as observed at startup:
`missing` — `os.path.exists` is false (line 59);
`unreadable` — `open`/read raises `OSError` (caught, line 89);
`notUtf8` — the bytes do not decode as UTF-8, so `json.load` raises
`UnicodeDecodeError` (NOT caught);
`notJson` — decodes as text but is not valid JSON, so `json.load` raises
`json.JSONDecodeError` (caught);
`parsed j` — `json.load` returns the value `j`. -/
inductive CheckpointFile where
  | missing : CheckpointFile
  | unreadable : CheckpointFile
  | notUtf8 : CheckpointFile
  | notJson : CheckpointFile
  | parsed : Json → CheckpointFile

/-- Python hashability of a JSON-decoded value: `str`, `int`/`float`,
`bool` and `None` are hashable; `list` and `dict` are not, and make
`set(...)` raise `TypeError`. -/
def hashableJson : Json → Bool
  | Json.arr _ => false
  | Json.obj _ => false
  | _ => true

/-- One bucket of the checkpoint: `set(id_list)` when the value is a list
— which hashes every element and raises `TypeError` on an unhashable one —
else `set()` (src/main.py lines 76-80).  Hashable non-string elements are
kept only as the string members (`stringsOf`), since a non-string can
never equal a string paper id. -/
def bucketOfJson : Json → Except PyError (List String)
  | Json.arr id_list =>
    if id_list.all hashableJson then Except.ok (stringsOf id_list)
    else Except.error PyError.typeError
  | _ => Except.ok []

/-- The `for date_str, id_list in processed_section.items()` loop of
src/main.py lines 76-80: builds the buckets in order, propagating the
first `TypeError`. -/
def entriesToBuckets : List (String × Json) → Except PyError (List (String × List String))
  | [] => Except.ok []
  | kv :: rest =>
    match bucketOfJson kv.2 with
    | Except.ok ids =>
      match entriesToBuckets rest with
      | Except.ok loaded => Except.ok ((kv.1, ids) :: loaded)
      | Except.error e => Except.error e
    | Except.error e => Except.error e

/-- The conversion of a validated `processedIds` object into the per-date
map and the global union set (src/main.py lines 74-87); any other value
for `processedIds` means invalid structure, so start fresh. -/
def loadFromSection : Json → Except PyError (List (String × List String) × List String)
  | Json.obj entries =>
    match entriesToBuckets entries with
    | Except.ok loaded_by_date => Except.ok (loaded_by_date, unionValues loaded_by_date)
    | Except.error e => Except.error e
  | _ => Except.ok ([], [])

/-- The `"processedIds" not in data` check of src/main.py line 65: a
missing key means invalid structure, start fresh. -/
def loadFromLookup : Option Json → Except PyError (List (String × List String) × List String)
  | some processed_section => loadFromSection processed_section
  | none => Except.ok ([], [])

/-- The `isinstance(data, dict)` check of src/main.py line 65: a
non-object top level means invalid structure, start fresh. -/
def loadFromData : Json → Except PyError (List (String × List String) × List String)
  | Json.obj fields => loadFromLookup (lookupLast fields "processedIds")
  | _ => Except.ok ([], [])

/-- `load_all_processed_ids()` from `src/main.py`.  `Except.ok` is a
normal return of the per-date map and the global id set; `Except.error`
is an exception escaping the function: only `json.JSONDecodeError` and
`OSError` are caught (line 89), so a `TypeError` from `set(id_list)` or a
`UnicodeDecodeError` from reading a non-UTF-8 file propagates to the
caller. -/
def load_all_processed_ids (file : CheckpointFile) :
    Except PyError (List (String × List String) × List String) :=
  match file with
  | CheckpointFile.missing => Except.ok ([], [])
  | CheckpointFile.unreadable => Except.ok ([], [])
  | CheckpointFile.notUtf8 => Except.error PyError.unicodeDecodeError
  | CheckpointFile.notJson => Except.ok ([], [])
  | CheckpointFile.parsed data => loadFromData data

/-- The startup of `fetch_papers` (src/main.py lines 159-165): module-level
`newest_val = INITIAL_DATE`, `pending_newest_val = newest_val`, then
`processed_ids_by_date, all_processed_ids = load_all_processed_ids()`.
The corpus file is whatever it already contains; the persisted map is what
load reconstructed.  An exception from load propagates: `fetch_papers`
has no handler around line 164 and `main` catches only
`KeyboardInterrupt`, so startup crashes. -/
def startupState (file : CheckpointFile) (corpus0 : List Paper) :
    Except PyError EngineState :=
  match load_all_processed_ids file with
  | Except.ok loaded =>
    Except.ok
      { newest_val := INITIAL_DATE
        pending_newest_val := INITIAL_DATE
        processed_ids_by_date := loaded.1
        all_processed_ids := loaded.2
        corpus := corpus0
        saved := loaded.1 }
  | Except.error e => Except.error e

/-- Serialization of the checkpoint written by `save_all_processed_ids`:
`{"processedIds": {date: [ids...], ...}}`.  Whitespace and indentation of
`json.dump(..., indent=2)` are abstracted; what matters below is that the
output is a nonempty string determined by the map. -/
def serializeCheckpoint (by_date : List (String × List String)) : String :=
  let renderIds := fun (ids : List String) =>
    String.intercalate ", " (ids.map (fun i => "\x22" ++ i ++ "\x22"))
  let renderEntry := fun (kv : String × List String) =>
    "\x22" ++ kv.1 ++ "\x22: [" ++ renderIds kv.2 ++ "]"
  "\x7b\x22processedIds\x22: \x7b" ++
    String.intercalate ", " (by_date.map renderEntry) ++ "\x7d\x7d"

/-- The file contents observable if the process crashes during
`save_all_processed_ids`: `open(PROCESSED_IDS_FILE, "w")` truncates the
file in place, then `json.dump` streams the serialized text, so every
prefix of the new content — starting from the empty file — is a possible
crash state.  There is no temporary file and no rename. -/
def saveObservableContents (new_content : String) : List String :=
  (List.range (new_content.data.length + 1)).map
    (fun n => String.mk (new_content.data.take n))

/-- A rewrite of a file from `old` to `new` is atomic with respect to crash
when every observable intermediate content is the old or the new content. -/
def atomicWrt (old : String) (new : String) : Prop :=
  ∀ c ∈ saveObservableContents new, c = old ∨ c = new

/-- Python `set.add`: membership-preserving insert. -/
def setAdd (s : List String) (x : String) : List String :=
  if x ∈ s then s else x :: s

/-- Python `set.remove` / `set.discard`: drop the element.  (`remove` is only
called by the toggles after a membership test, so it never raises.) -/
def setRemove (s : List String) (x : String) : List String :=
  s.filter (fun e => e ≠ x)

/-- The per-user record held by `UserPreferences.user_data` in
`src/reco_algo.py` (the four preference sets; view counters and timestamps
are not touched by any toggle and are omitted from this fragment). -/
structure UserData where
  bookmarks : List String
  downloads : List String
  show_more : List String
  show_less : List String
  followed_authors : List String
  blocked_authors : List String
deriving DecidableEq, Repr

/-- The `defaultdict` default: a fresh record of empty sets. -/
def emptyUserData : UserData :=
  { bookmarks := [], downloads := [], show_more := [], show_less := []
    followed_authors := [], blocked_authors := [] }

/-- `UserPreferences.user_data`: user id to record, with the `defaultdict`
semantics of materializing `emptyUserData` on first access. -/
def UserPrefs := List (String × UserData)

/-- `self.user_data[user_id]` on a `defaultdict`. -/
def getUser (st : UserPrefs) (uid : String) : UserData :=
  match st.find? (fun kv => kv.1 = uid) with
  | some kv => kv.2
  | none => emptyUserData

/-- Store back the (mutated) record of one user. -/
def putUser (st : UserPrefs) (uid : String) (d : UserData) : UserPrefs :=
  match st with
  | [] => [(uid, d)]
  | kv :: rest => if kv.1 = uid then (uid, d) :: rest else kv :: putUser rest uid d

/-- `toggle_bookmark(user_id, paper_id)`. -/
def toggle_bookmark (d : UserData) (pid : String) : UserData × Bool :=
  if pid ∈ d.bookmarks then ({ d with bookmarks := setRemove d.bookmarks pid }, false)
  else ({ d with bookmarks := setAdd d.bookmarks pid }, true)

/-- `toggle_download(user_id, paper_id)`. -/
def toggle_download (d : UserData) (pid : String) : UserData × Bool :=
  if pid ∈ d.downloads then ({ d with downloads := setRemove d.downloads pid }, false)
  else ({ d with downloads := setAdd d.downloads pid }, true)

/-- `toggle_show_more(user_id, paper_id)`: add to `show_more` and discard
from `show_less` (or remove when already present). -/
def toggle_show_more (d : UserData) (pid : String) : UserData × Bool :=
  if pid ∈ d.show_more then ({ d with show_more := setRemove d.show_more pid }, false)
  else ({ d with show_more := setAdd d.show_more pid
               , show_less := setRemove d.show_less pid }, true)

/-- `toggle_show_less(user_id, paper_id)`: add to `show_less` and discard
from `show_more` (or remove when already present). -/
def toggle_show_less (d : UserData) (pid : String) : UserData × Bool :=
  if pid ∈ d.show_less then ({ d with show_less := setRemove d.show_less pid }, false)
  else ({ d with show_less := setAdd d.show_less pid
               , show_more := setRemove d.show_more pid }, true)

/-- `toggle_follow_author(user_id, author_id)`: follow and discard from
blocked (or unfollow when already followed). -/
def toggle_follow_author (d : UserData) (aid : String) : UserData × Bool :=
  if aid ∈ d.followed_authors then
    ({ d with followed_authors := setRemove d.followed_authors aid }, false)
  else
    ({ d with followed_authors := setAdd d.followed_authors aid
            , blocked_authors := setRemove d.blocked_authors aid }, true)

/-- `toggle_block_author(user_id, author_id)`: block and discard from
followed (or unblock when already blocked). -/
def toggle_block_author (d : UserData) (aid : String) : UserData × Bool :=
  if aid ∈ d.blocked_authors then
    ({ d with blocked_authors := setRemove d.blocked_authors aid }, false)
  else
    ({ d with blocked_authors := setAdd d.blocked_authors aid
            , followed_authors := setRemove d.followed_authors aid }, true)

/-- The toggle operations of `UserPreferences`, as data. -/
inductive PrefOp where
  | bookmark (pid : String)
  | download (pid : String)
  | showMore (pid : String)
  | showLess (pid : String)
  | followAuthor (aid : String)
  | blockAuthor (aid : String)
deriving DecidableEq, Repr

/-- Dispatch one toggle on one user's record. -/
def applyOpData (d : UserData) : PrefOp → UserData × Bool
  | PrefOp.bookmark pid => toggle_bookmark d pid
  | PrefOp.download pid => toggle_download d pid
  | PrefOp.showMore pid => toggle_show_more d pid
  | PrefOp.showLess pid => toggle_show_less d pid
  | PrefOp.followAuthor aid => toggle_follow_author d aid
  | PrefOp.blockAuthor aid => toggle_block_author d aid

/-- A toggle call `self.toggle_*(user_id, ...)`: mutates only that user's
record in `user_data`. -/
def applyOp (st : UserPrefs) (uid : String) (op : PrefOp) : UserPrefs × Bool :=
  let r := applyOpData (getUser st uid) op
  (putUser st uid r.1, r.2)

/-- Two lists are disjoint as sets. -/
def disjointL (a b : List String) : Prop := ∀ x, x ∈ a → x ∉ b

/-- The invariant claimed of every user record: `show_more` and `show_less`
are disjoint, and `followed_authors` and `blocked_authors` are disjoint. -/
def prefInvariant (d : UserData) : Prop :=
  disjointL d.show_more d.show_less ∧ disjointL d.followed_authors d.blocked_authors

/-- The invariant over the whole store, for every user. -/
def prefsInvariant (st : UserPrefs) : Prop :=
  ∀ uid, prefInvariant (getUser st uid)

/-- The id-bucket stored under a key of the per-date map (empty when the
key is absent). -/
def lookupBucket (m : List (String × List String)) (key : String) : List String :=
  match m.find? (fun kv => kv.1 = key) with
  | some kv => kv.2
  | none => []

/-- The JSON value `json.load` would return for a checkpoint file written
by `save_all_processed_ids`: `{"processedIds": {date: [id, ...], ...}}`. -/
def jsonOfCheckpoint (m : List (String × List String)) : Json :=
  Json.obj [("processedIds",
    Json.obj (m.map (fun kv => (kv.1, Json.arr (kv.2.map Json.str)))))]

/-- Validation outcome for the value found under the `processedIds` key:
failure when the key is missing or its value is not a JSON object. -/
def validationFailsAt : Option Json → Prop
  | some (Json.obj _) => False
  | some _ => True
  | none => True

/-- The structural-validation failures recognized by
`load_all_processed_ids` (src/main.py lines 65-72): the top-level value is
not an object, the `processedIds` key is missing, or its value is not an
object. -/
def failsValidation : Json → Prop
  | Json.obj fields => validationFailsAt (lookupLast fields "processedIds")
  | _ => True

/-- Restart after a crash or shutdown: `fetch_papers` begins again at
module load, with `newest_val = pending_newest_val = INITIAL_DATE` and the
dedupe structures reloaded from the persisted checkpoint; the append-only
corpus file still holds everything written before.  A checkpoint written
by `save_all_processed_ids` always reloads without exception
(`load_jsonOfCheckpoint`), so the error fallback of this match is
unreachable and only totalizes the definition. -/
def restartFrom (st : EngineState) : EngineState :=
  match startupState (CheckpointFile.parsed (jsonOfCheckpoint st.saved)) st.corpus with
  | Except.ok st2 => st2
  | Except.error _ => st

/-- Was a record accepted for emission by the filter chain of
`fetch_papers`?  True exactly when the record has a nonempty id and its
publication date is absent, empty, or a parseable non-future date.  This
predicate depends only on the record and the clock, not on engine state. -/
def accepted (today : Date) (q : Paper) : Bool :=
  match q.paperId with
  | none => false
  | some pid =>
    pid ≠ "" &&
    (match q.publicationDate with
     | none => true
     | some pd => pd = "" || !(is_future_date today pd))

/-- One page-fetch request as issued by `fetch_papers` line 177: the URL is
built with `build_url(newest_val)`; continuation requests reuse the same
`url` string with a `&token=` suffix, so they carry the same lower bound.
`cursor_at` and `pending_at` record the engine state when the URL was
built. -/
structure FetchRequest where
  url : String
  start_date : String
  cursor_at : String
  pending_at : String
deriving DecidableEq, Repr

/-- Run the outer loop while recording, per iteration, the request built at
line 177 (after the promotion check and before page processing). -/
def runEngineObs (today : Date) (today_str : String) (st : EngineState) :
    List Iteration → EngineState × List FetchRequest
  | [] => (st, [])
  | it :: rest =>
    let st1 := if it.promote then promoteTick st else st
    let req : FetchRequest :=
      { url := build_url today_str st1.newest_val
        start_date := st1.newest_val
        cursor_at := st1.newest_val
        pending_at := st1.pending_newest_val }
    let st2 := runPages today st1 it.pages
    let r := runEngineObs today today_str st2 rest
    (r.1, req :: r.2)

/-- The record of the promotion scenario: id `p1`, published 2024-01-02. -/
def paperP1 : Paper := { paperId := some "p1", publicationDate := some "2024-01-02" }

/-- A concrete state with committed and pending cursor `2024-01-01`, an
empty dedupe scope, and nothing yet appended or persisted. -/
def freshState : EngineState :=
  { newest_val := "2024-01-01"
    pending_newest_val := "2024-01-01"
    processed_ids_by_date := []
    all_processed_ids := []
    corpus := []
    saved := [] }

/-- The scenario's run: one fetch delivering the single page `[paperP1]`
with no promotion, then an iteration on which the promotion tick fires with
no further pages; the clock stands at 2024-01-03. -/
def scenarioFinal : EngineState :=
  runEngine ⟨2024, 1, 3⟩ freshState
    [{ promote := false, pages := [[paperP1]] }, { promote := true, pages := [] }]

theorem dateLt_asymm {a b : Date} (h : dateLt a b) : ¬ dateLt b a := by
  unfold dateLt at *; omega

theorem dateLe_refl (a : Date) : dateLe a a := by
  unfold dateLe dateLt; omega

theorem dateLe_trans {a b c : Date} (h1 : dateLe a b) (h2 : dateLe b c) : dateLe a c := by
  unfold dateLe dateLt at *; omega

theorem dateLe_of_lt {a b : Date} (h : dateLt a b) : dateLe a b := by
  unfold dateLe dateLt at *; omega

theorem parseDate_empty : parseDate "" = none := by decide

theorem mem_addToDate_self (m : List (String × List String)) (key pid : String) :
    pid ∈ lookupBucket (addToDate m key pid) key := by
  induction m with
  | nil => simp [addToDate, lookupBucket, List.find?]
  | cons kv rest ih =>
    by_cases h : kv.1 = key
    · simp only [addToDate, h]
      simp [lookupBucket, List.find?, h]
    · simp only [addToDate, h]
      simpa [lookupBucket, List.find?, h] using ih

theorem mem_unionValues_addToDate_self (m : List (String × List String)) (key pid : String) :
    pid ∈ unionValues (addToDate m key pid) := by
  induction m with
  | nil => simp [addToDate, unionValues]
  | cons kv rest ih =>
    by_cases h : kv.1 = key
    · cases kv with
      | mk k ids => simp_all [addToDate, unionValues]
    · cases kv with
      | mk k ids =>
        simp only [addToDate] at *
        simp_all [unionValues]

theorem mem_unionValues_addToDate_mono (m : List (String × List String)) (key pid x : String)
    (hx : x ∈ unionValues m) : x ∈ unionValues (addToDate m key pid) := by
  induction m with
  | nil => simp [unionValues] at hx
  | cons kv rest ih =>
    cases kv with
    | mk k ids =>
      by_cases h : k = key
      · simp only [addToDate, h] at *
        simp [unionValues] at hx ⊢
        tauto
      · simp only [addToDate, h] at *
        simp [unionValues] at hx ⊢
        tauto

theorem processPaper_skip_mem (today : Date) (st : EngineState) (q : Paper) (pid : String)
    (hid : q.paperId = some pid) (hmem : pid ∈ st.all_processed_ids) :
    processPaper today st q = st := by
  unfold processPaper
  rw [hid]
  by_cases h1 : pid = "" <;> simp [h1, hmem]

theorem processPaper_spec (today : Date) (st : EngineState) (q : Paper) :
    processPaper today st q = st ∨
    ∃ pid key,
      q.paperId = some pid ∧
      pid ∉ st.all_processed_ids ∧
      (processPaper today st q).corpus = st.corpus ++ [q] ∧
      (processPaper today st q).all_processed_ids = pid :: st.all_processed_ids ∧
      (processPaper today st q).processed_ids_by_date
        = addToDate st.processed_ids_by_date key pid ∧
      (processPaper today st q).saved = st.saved ∧
      (processPaper today st q).newest_val = st.newest_val ∧
      ((processPaper today st q).pending_newest_val = st.pending_newest_val ∨
        ∃ d, parseDate (processPaper today st q).pending_newest_val = some d) := by
  unfold processPaper
  cases hid : q.paperId with
  | none => exact Or.inl rfl
  | some pid =>
    by_cases h1 : pid = ""
    · simp [h1]
    · by_cases h2 : pid ∈ st.all_processed_ids
      · simp [h1, h2]
      · by_cases h3 : (optTruthy q.publicationDate
            && is_future_date today (q.publicationDate.getD "")) = true
        · simp [h1, h2, h3]
        · cases hpd : q.publicationDate with
          | none =>
            refine Or.inr ⟨pid, "unknown", rfl, h2, ?_⟩
            simp [h1, h2, hpd, optTruthy, appendPaper]
          | some pd =>
            rw [hpd] at h3
            by_cases h4 : pd = ""
            · refine Or.inr ⟨pid, "unknown", rfl, h2, ?_⟩
              simp [h1, h2, hpd, h4, optTruthy, appendPaper]
            · have hfut : is_future_date today pd = false := by
                simp [optTruthy, h4] at h3
                exact h3
              cases hp1 : parseDate pd with
              | none =>
                simp [is_future_date, hp1] at hfut
              | some dObj =>
                cases hp2 : parseDate st.pending_newest_val with
                | none => simp [h1, h2, hpd, h4, optTruthy, hfut, hp1, hp2]
                | some pObj =>
                  refine Or.inr ⟨pid, pd, rfl, h2, ?_⟩
                  by_cases h5 : dateLt pObj dObj
                  · refine ⟨?_, ?_, ?_, ?_, ?_, Or.inr ⟨dObj, ?_⟩⟩ <;>
                      simp [h1, h2, hpd, h4, optTruthy, hfut, hp1, hp2, h5, appendPaper]
                  · refine ⟨?_, ?_, ?_, ?_, ?_, Or.inl ?_⟩ <;>
                      simp [h1, h2, hpd, h4, optTruthy, hfut, hp1, hp2, h5, appendPaper]

theorem processPaper_newest (today : Date) (st : EngineState) (q : Paper) :
    (processPaper today st q).newest_val = st.newest_val := by
  rcases processPaper_spec today st q with h | ⟨_, _, _, _, _, _, _, _, hn, _⟩
  · rw [h]
  · exact hn

theorem processPaper_mem_mono (today : Date) (st : EngineState) (q : Paper)
    (x : String) (hx : x ∈ st.all_processed_ids) :
    x ∈ (processPaper today st q).all_processed_ids := by
  rcases processPaper_spec today st q with h | ⟨pid, _, _, _, _, ha, _, _, _, _⟩
  · rw [h]; exact hx
  · rw [ha]; exact List.mem_cons_of_mem pid hx

theorem processPaper_pending_isSome (today : Date) (st : EngineState) (q : Paper)
    (h : (parseDate st.pending_newest_val).isSome) :
    (parseDate (processPaper today st q).pending_newest_val).isSome := by
  rcases processPaper_spec today st q with h' | ⟨_, _, _, _, _, _, _, _, _, hp | ⟨d, hp⟩⟩
  · rw [h']; exact h
  · rw [hp]; exact h
  · rw [hp]; simp

theorem processPaper_pending_mono (today : Date) (st : EngineState) (q : Paper)
    (pObj : Date) (hp : parseDate st.pending_newest_val = some pObj) :
    ∃ p', parseDate (processPaper today st q).pending_newest_val = some p' ∧
      dateLe pObj p' := by
  unfold processPaper
  cases hid : q.paperId with
  | none => exact ⟨pObj, hp, dateLe_refl _⟩
  | some pid =>
    by_cases h1 : pid = ""
    · refine ⟨pObj, ?_, dateLe_refl _⟩; simp [h1, hp]
    · by_cases h2 : pid ∈ st.all_processed_ids
      · refine ⟨pObj, ?_, dateLe_refl _⟩; simp [h1, h2, hp]
      · by_cases h3 : (optTruthy q.publicationDate
            && is_future_date today (q.publicationDate.getD "")) = true
        · refine ⟨pObj, ?_, dateLe_refl _⟩; simp [h1, h2, h3, hp]
        · cases hpd : q.publicationDate with
          | none =>
            refine ⟨pObj, ?_, dateLe_refl _⟩
            simp [h1, h2, hpd, optTruthy, appendPaper, hp]
          | some pd =>
            rw [hpd] at h3
            by_cases h4 : pd = ""
            · refine ⟨pObj, ?_, dateLe_refl _⟩
              simp [h1, h2, hpd, h4, optTruthy, appendPaper, hp]
            · have hfut : is_future_date today pd = false := by
                simp [optTruthy, h4] at h3
                exact h3
              cases hp1 : parseDate pd with
              | none => simp [is_future_date, hp1] at hfut
              | some dObj =>
                by_cases h5 : dateLt pObj dObj
                · refine ⟨dObj, ?_, dateLe_of_lt h5⟩
                  simp [h1, h2, hpd, h4, optTruthy, hfut, hp1, hp, h5, appendPaper]
                · refine ⟨pObj, ?_, dateLe_refl _⟩
                  simp [h1, h2, hpd, h4, optTruthy, hfut, hp1, hp, h5, appendPaper]

theorem processPaper_not_accepted (today : Date) (st : EngineState) (q : Paper)
    (hacc : accepted today q = false) : processPaper today st q = st := by
  unfold processPaper
  cases hid : q.paperId with
  | none => rfl
  | some pid =>
    rw [accepted, hid] at hacc
    by_cases h1 : pid = ""
    · simp [h1]
    · by_cases h2 : pid ∈ st.all_processed_ids
      · simp [h1, h2]
      · cases hpd : q.publicationDate with
        | none => rw [hpd] at hacc; simp [h1] at hacc
        | some pd =>
          rw [hpd] at hacc
          by_cases h4 : pd = ""
          · simp [h1, h4] at hacc
          · have hfut : is_future_date today pd = true := by
              simp [h1, h4] at hacc
              exact hacc
            simp [h1, h2, hpd, optTruthy, h4, hfut]

theorem processPaper_accepted_mem (today : Date) (st : EngineState) (q : Paper)
    (pid : String) (hid : q.paperId = some pid) (hacc : accepted today q = true)
    (hp : (parseDate st.pending_newest_val).isSome) :
    pid ∈ (processPaper today st q).all_processed_ids := by
  unfold processPaper
  rw [hid]
  rw [accepted, hid] at hacc
  have h1 : pid ≠ "" := by
    intro h
    rw [h] at hacc
    simp at hacc
  by_cases h2 : pid ∈ st.all_processed_ids
  · simp [h1, h2]
  · cases hpd : q.publicationDate with
    | none => simp [h1, h2, hpd, optTruthy, appendPaper]
    | some pd =>
      rw [hpd] at hacc
      by_cases h4 : pd = ""
      · simp [h1, h2, hpd, h4, optTruthy, appendPaper]
      · have hfut : is_future_date today pd = false := by
          simp [h1, h4] at hacc
          exact hacc
        cases hp1 : parseDate pd with
        | none => simp [is_future_date, hp1] at hfut
        | some dObj =>
          rcases Option.isSome_iff_exists.mp hp with ⟨pObj, hp2⟩
          by_cases h5 : dateLt pObj dObj
          · simp [h1, h2, hpd, h4, optTruthy, hfut, hp1, hp2, h5, appendPaper]
          · simp [h1, h2, hpd, h4, optTruthy, hfut, hp1, hp2, h5, appendPaper]

theorem foldl_processPaper_newest (today : Date) :
    ∀ (papers : List Paper) (st : EngineState),
      (papers.foldl (processPaper today) st).newest_val = st.newest_val := by
  intro papers
  induction papers with
  | nil => intro st; rfl
  | cons q rest ih =>
    intro st
    rw [List.foldl_cons, ih, processPaper_newest]

theorem runPages_newest (today : Date) :
    ∀ (pages : List (List Paper)) (st : EngineState),
      (runPages today st pages).newest_val = st.newest_val := by
  intro pages
  induction pages with
  | nil => intro st; rfl
  | cons pg rest ih =>
    intro st
    unfold runPages at *
    rw [List.foldl_cons, ih]
    show (processPage today st pg).newest_val = st.newest_val
    unfold processPage
    exact foldl_processPaper_newest today pg st

theorem foldl_processPaper_mem_mono (today : Date) :
    ∀ (papers : List Paper) (st : EngineState) (x : String),
      x ∈ st.all_processed_ids →
      x ∈ (papers.foldl (processPaper today) st).all_processed_ids := by
  intro papers
  induction papers with
  | nil => intro st x hx; exact hx
  | cons q rest ih =>
    intro st x hx
    rw [List.foldl_cons]
    exact ih _ x (processPaper_mem_mono today st q x hx)

theorem runPages_mem_mono (today : Date) :
    ∀ (pages : List (List Paper)) (st : EngineState) (x : String),
      x ∈ st.all_processed_ids →
      x ∈ (runPages today st pages).all_processed_ids := by
  intro pages
  induction pages with
  | nil => intro st x hx; exact hx
  | cons pg rest ih =>
    intro st x hx
    unfold runPages at *
    rw [List.foldl_cons]
    refine ih _ x ?_
    show x ∈ (processPage today st pg).all_processed_ids
    unfold processPage
    exact foldl_processPaper_mem_mono today pg st x hx

theorem foldl_processPaper_pending_isSome (today : Date) :
    ∀ (papers : List Paper) (st : EngineState),
      (parseDate st.pending_newest_val).isSome →
      (parseDate (papers.foldl (processPaper today) st).pending_newest_val).isSome := by
  intro papers
  induction papers with
  | nil => intro st h; exact h
  | cons q rest ih =>
    intro st h
    rw [List.foldl_cons]
    exact ih _ (processPaper_pending_isSome today st q h)

theorem runPages_pending_isSome (today : Date) :
    ∀ (pages : List (List Paper)) (st : EngineState),
      (parseDate st.pending_newest_val).isSome →
      (parseDate (runPages today st pages).pending_newest_val).isSome := by
  intro pages
  induction pages with
  | nil => intro st h; exact h
  | cons pg rest ih =>
    intro st h
    unfold runPages at *
    rw [List.foldl_cons]
    refine ih _ ?_
    show (parseDate (processPage today st pg).pending_newest_val).isSome
    unfold processPage
    exact foldl_processPaper_pending_isSome today pg st h

theorem foldl_processPaper_pending_mono (today : Date) :
    ∀ (papers : List Paper) (st : EngineState) (pObj : Date),
      parseDate st.pending_newest_val = some pObj →
      ∃ p', parseDate (papers.foldl (processPaper today) st).pending_newest_val = some p' ∧
        dateLe pObj p' := by
  intro papers
  induction papers with
  | nil => intro st pObj hp; exact ⟨pObj, hp, dateLe_refl _⟩
  | cons q rest ih =>
    intro st pObj hp
    rw [List.foldl_cons]
    rcases processPaper_pending_mono today st q pObj hp with ⟨p1, hp1, hle1⟩
    rcases ih _ p1 hp1 with ⟨p2, hp2, hle2⟩
    exact ⟨p2, hp2, dateLe_trans hle1 hle2⟩

theorem runPages_pending_mono (today : Date) :
    ∀ (pages : List (List Paper)) (st : EngineState) (pObj : Date),
      parseDate st.pending_newest_val = some pObj →
      ∃ p', parseDate (runPages today st pages).pending_newest_val = some p' ∧
        dateLe pObj p' := by
  intro pages
  induction pages with
  | nil => intro st pObj hp; exact ⟨pObj, hp, dateLe_refl _⟩
  | cons pg rest ih =>
    intro st pObj hp
    unfold runPages at *
    rw [List.foldl_cons]
    have hpage : ∃ p1, parseDate (processPage today st pg).pending_newest_val = some p1 ∧
        dateLe pObj p1 := by
      unfold processPage
      exact foldl_processPaper_pending_mono today pg st pObj hp
    rcases hpage with ⟨p1, hp1, hle1⟩
    rcases ih _ p1 hp1 with ⟨p2, hp2, hle2⟩
    exact ⟨p2, hp2, dateLe_trans hle1 hle2⟩

theorem runPages_saved_sync (today : Date) :
    ∀ (pages : List (List Paper)) (st : EngineState),
      st.saved = st.processed_ids_by_date →
      (runPages today st pages).saved = (runPages today st pages).processed_ids_by_date := by
  intro pages
  induction pages with
  | nil => intro st h; exact h
  | cons pg rest ih =>
    intro st h
    unfold runPages at *
    rw [List.foldl_cons]
    exact ih _ rfl

theorem processPaper_subset_inv (today : Date) (st : EngineState) (q : Paper)
    (hsub : ∀ x ∈ st.all_processed_ids, x ∈ unionValues st.processed_ids_by_date) :
    ∀ x ∈ (processPaper today st q).all_processed_ids,
      x ∈ unionValues (processPaper today st q).processed_ids_by_date := by
  rcases processPaper_spec today st q with h | ⟨pid, key, _, _, _, ha, hb, _, _, _⟩
  · rw [h]; exact hsub
  · intro x hx
    rw [ha] at hx
    rw [hb]
    rcases List.mem_cons.mp hx with h | h
    · rw [h]; exact mem_unionValues_addToDate_self _ _ _
    · exact mem_unionValues_addToDate_mono _ _ _ _ (hsub x h)

theorem foldl_processPaper_subset_inv (today : Date) :
    ∀ (papers : List Paper) (st : EngineState),
      (∀ x ∈ st.all_processed_ids, x ∈ unionValues st.processed_ids_by_date) →
      ∀ x ∈ (papers.foldl (processPaper today) st).all_processed_ids,
        x ∈ unionValues (papers.foldl (processPaper today) st).processed_ids_by_date := by
  intro papers
  induction papers with
  | nil => intro st h; exact h
  | cons q rest ih =>
    intro st h
    rw [List.foldl_cons]
    exact ih _ (processPaper_subset_inv today st q h)

theorem runPages_subset_inv (today : Date) :
    ∀ (pages : List (List Paper)) (st : EngineState),
      (∀ x ∈ st.all_processed_ids, x ∈ unionValues st.processed_ids_by_date) →
      ∀ x ∈ (runPages today st pages).all_processed_ids,
        x ∈ unionValues (runPages today st pages).processed_ids_by_date := by
  intro pages
  induction pages with
  | nil => intro st h; exact h
  | cons pg rest ih =>
    intro st h
    unfold runPages at *
    rw [List.foldl_cons]
    refine ih _ ?_
    show ∀ x ∈ (processPage today st pg).all_processed_ids,
      x ∈ unionValues (processPage today st pg).processed_ids_by_date
    unfold processPage
    exact foldl_processPaper_subset_inv today pg st h

theorem foldl_processPaper_accepted_mem (today : Date) :
    ∀ (papers : List Paper) (st : EngineState),
      (parseDate st.pending_newest_val).isSome →
      ∀ q ∈ papers, ∀ pid, q.paperId = some pid → accepted today q = true →
        pid ∈ (papers.foldl (processPaper today) st).all_processed_ids := by
  intro papers
  induction papers with
  | nil => intro st _ q hq; exact absurd hq (List.not_mem_nil q)
  | cons q' rest ih =>
    intro st hpend q hq pid hid hacc
    rw [List.foldl_cons]
    rcases List.mem_cons.mp hq with h | h
    · subst h
      exact foldl_processPaper_mem_mono today rest _ pid
        (processPaper_accepted_mem today st q pid hid hacc hpend)
    · exact ih _ (processPaper_pending_isSome today st q' hpend) q h pid hid hacc

theorem runPages_accepted_mem (today : Date) :
    ∀ (pages : List (List Paper)) (st : EngineState),
      (parseDate st.pending_newest_val).isSome →
      ∀ pg ∈ pages, ∀ q ∈ pg, ∀ pid, q.paperId = some pid → accepted today q = true →
        pid ∈ (runPages today st pages).all_processed_ids := by
  intro pages
  induction pages with
  | nil => intro st _ pg hpg; exact absurd hpg (List.not_mem_nil pg)
  | cons pg' rest ih =>
    intro st hpend pg hpg q hq pid hid hacc
    unfold runPages at *
    rw [List.foldl_cons]
    rcases List.mem_cons.mp hpg with h | h
    · subst h
      refine runPages_mem_mono today rest _ pid ?_
      show pid ∈ (processPage today st pg).all_processed_ids
      unfold processPage
      exact foldl_processPaper_accepted_mem today pg st hpend q hq pid hid hacc
    · refine ih _ ?_ pg h q hq pid hid hacc
      show (parseDate (processPage today st pg').pending_newest_val).isSome
      unfold processPage
      exact foldl_processPaper_pending_isSome today pg' st hpend

theorem foldl_processPaper_appends (today : Date) :
    ∀ (papers : List Paper) (st : EngineState),
      ∃ delta,
        (papers.foldl (processPaper today) st).corpus = st.corpus ++ delta ∧
        (delta.filterMap Paper.paperId).Nodup ∧
        (∀ i ∈ delta.filterMap Paper.paperId, i ∉ st.all_processed_ids) ∧
        (∀ i ∈ delta.filterMap Paper.paperId,
          i ∈ (papers.foldl (processPaper today) st).all_processed_ids) := by
  intro papers
  induction papers with
  | nil =>
    intro st
    exact ⟨[], by simp, by simp, by simp, by simp⟩
  | cons q rest ih =>
    intro st
    rw [List.foldl_cons]
    rcases processPaper_spec today st q with h | ⟨pid, key, hid, hmem, hc, ha, _, _, _, _⟩
    · rcases ih (processPaper today st q) with ⟨delta, h1, h2, h3, h4⟩
      rw [h] at h1 h3 h4 ⊢
      exact ⟨delta, h1, h2, h3, h4⟩
    · rcases ih (processPaper today st q) with ⟨delta, h1, h2, h3, h4⟩
      refine ⟨q :: delta, ?_, ?_, ?_, ?_⟩
      · rw [h1, hc]
        simp
      · have hq : (q :: delta).filterMap Paper.paperId = pid :: delta.filterMap Paper.paperId := by
          simp [List.filterMap_cons, hid]
        rw [hq]
        refine List.nodup_cons.mpr ⟨?_, h2⟩
        intro hin
        have := h3 pid hin
        rw [ha] at this
        exact this (List.mem_cons_self pid _)
      · intro i hi
        rw [List.filterMap_cons, hid] at hi
        rcases List.mem_cons.mp hi with h' | h'
        · rw [h']; exact hmem
        · intro hbad
          have := h3 i h'
          rw [ha] at this
          exact this (List.mem_cons_of_mem pid hbad)
      · intro i hi
        rw [List.filterMap_cons, hid] at hi
        rcases List.mem_cons.mp hi with h' | h'
        · rw [h']
          refine foldl_processPaper_mem_mono today rest _ pid ?_
          rw [ha]
          exact List.mem_cons_self pid _
        · exact h4 i h'

theorem runPages_appends (today : Date) :
    ∀ (pages : List (List Paper)) (st : EngineState),
      ∃ delta,
        (runPages today st pages).corpus = st.corpus ++ delta ∧
        (delta.filterMap Paper.paperId).Nodup ∧
        (∀ i ∈ delta.filterMap Paper.paperId, i ∉ st.all_processed_ids) ∧
        (∀ i ∈ delta.filterMap Paper.paperId,
          i ∈ (runPages today st pages).all_processed_ids) := by
  intro pages
  induction pages with
  | nil =>
    intro st
    exact ⟨[], by simp [runPages], by simp, by simp, by simp⟩
  | cons pg rest ih =>
    intro st
    have hpage : ∃ delta1,
        (processPage today st pg).corpus = st.corpus ++ delta1 ∧
        (delta1.filterMap Paper.paperId).Nodup ∧
        (∀ i ∈ delta1.filterMap Paper.paperId, i ∉ st.all_processed_ids) ∧
        (∀ i ∈ delta1.filterMap Paper.paperId,
          i ∈ (processPage today st pg).all_processed_ids) := by
      unfold processPage
      exact foldl_processPaper_appends today pg st
    rcases hpage with ⟨delta1, hc1, hn1, hf1, hm1⟩
    rcases ih (processPage today st pg) with ⟨delta2, hc2, hn2, hf2, hm2⟩
    have hrun : runPages today st (pg :: rest) = runPages today (processPage today st pg) rest := by
      unfold runPages
      rw [List.foldl_cons]
    refine ⟨delta1 ++ delta2, ?_, ?_, ?_, ?_⟩
    · rw [hrun, hc2, hc1, List.append_assoc]
    · rw [List.filterMap_append]
      refine List.nodup_append.mpr ⟨hn1, hn2, ?_⟩
      intro i hi1 hi2
      exact hf2 i hi2 (hm1 i hi1)
    · intro i hi
      rw [List.filterMap_append] at hi
      rcases List.mem_append.mp hi with h' | h'
      · exact hf1 i h'
      · intro hbad
        exact hf2 i h' (foldl_processPaper_mem_mono today pg st i hbad)
    · intro i hi
      rw [List.filterMap_append] at hi
      rw [hrun]
      rcases List.mem_append.mp hi with h' | h'
      · exact runPages_mem_mono today rest _ i (hm1 i h')
      · exact hm2 i h'

theorem processPage_saved_eq (today : Date) (st : EngineState) (pg : List Paper)
    (hfold : pg.foldl (processPaper today) st = st)
    (hsync : st.saved = st.processed_ids_by_date) :
    processPage today st pg = st := by
  unfold processPage
  rw [hfold]
  cases st with
  | mk a b c d e f =>
    simp only at hsync
    subst hsync
    rfl

theorem foldl_processPaper_fixpoint (today : Date) :
    ∀ (papers : List Paper) (st : EngineState),
      (∀ q ∈ papers, ∀ pid, q.paperId = some pid → accepted today q = true →
        pid ∈ st.all_processed_ids) →
      papers.foldl (processPaper today) st = st := by
  intro papers
  induction papers with
  | nil => intro st _; rfl
  | cons q rest ih =>
    intro st hall
    rw [List.foldl_cons]
    have hq : processPaper today st q = st := by
      cases hacc : accepted today q with
      | false => exact processPaper_not_accepted today st q hacc
      | true =>
        cases hid : q.paperId with
        | none => rw [accepted, hid] at hacc; simp at hacc
        | some pid =>
          exact processPaper_skip_mem today st q pid hid
            (hall q (List.mem_cons_self q rest) pid hid hacc)
    rw [hq]
    exact ih st (fun q' hq' => hall q' (List.mem_cons_of_mem q hq'))

theorem runPages_fixpoint (today : Date) :
    ∀ (pages : List (List Paper)) (st : EngineState),
      st.saved = st.processed_ids_by_date →
      (∀ pg ∈ pages, ∀ q ∈ pg, ∀ pid, q.paperId = some pid → accepted today q = true →
        pid ∈ st.all_processed_ids) →
      runPages today st pages = st := by
  intro pages
  induction pages with
  | nil => intro st _ _; rfl
  | cons pg rest ih =>
    intro st hsync hall
    unfold runPages at *
    rw [List.foldl_cons]
    have hpg : processPage today st pg = st :=
      processPage_saved_eq today st pg
        (foldl_processPaper_fixpoint today pg st
          (fun q hq => hall pg (List.mem_cons_self pg rest) q hq))
        hsync
    rw [hpg]
    exact ih st hsync (fun pg' hpg' => hall pg' (List.mem_cons_of_mem pg hpg'))

theorem load_parsed_eq (data : Json) :
    load_all_processed_ids (CheckpointFile.parsed data) = loadFromData data := rfl

theorem loadFromLookup_some_eq (ps : Json) :
    loadFromLookup (some ps) = loadFromSection ps := rfl

theorem loadFromSection_obj_eq (entries : List (String × Json)) :
    loadFromSection (Json.obj entries)
      = (match entriesToBuckets entries with
         | Except.ok loaded_by_date => Except.ok (loaded_by_date, unionValues loaded_by_date)
         | Except.error e => Except.error e) := rfl

theorem loadFromData_obj_eq (fields : List (String × Json)) :
    loadFromData (Json.obj fields) = loadFromLookup (lookupLast fields "processedIds") := rfl

theorem failsValidation_obj_eq (fields : List (String × Json)) :
    failsValidation (Json.obj fields) = validationFailsAt (lookupLast fields "processedIds") := rfl

theorem stringsOf_map_str (l : List String) : stringsOf (l.map Json.str) = l := by
  induction l with
  | nil => rfl
  | cons x rest ih => simp [stringsOf, ih]

theorem all_hashable_map_str (l : List String) :
    (l.map Json.str).all hashableJson = true := by
  induction l with
  | nil => rfl
  | cons x rest ih => simp [hashableJson, ih]

theorem entriesToBuckets_mapped (m : List (String × List String)) :
    entriesToBuckets (m.map (fun kv => (kv.1, Json.arr (kv.2.map Json.str))))
      = Except.ok m := by
  induction m with
  | nil => rfl
  | cons kv rest ih =>
    have hb : bucketOfJson (Json.arr (kv.2.map Json.str)) = Except.ok kv.2 := by
      unfold bucketOfJson
      simp [all_hashable_map_str, stringsOf_map_str]
    simp only [List.map_cons]
    unfold entriesToBuckets
    rw [hb, ih]

theorem load_jsonOfCheckpoint (m : List (String × List String)) :
    load_all_processed_ids (CheckpointFile.parsed (jsonOfCheckpoint m))
      = Except.ok (m, unionValues m) := by
  have hlook : lookupLast
      [("processedIds", Json.obj (m.map (fun kv => (kv.1, Json.arr (kv.2.map Json.str)))))]
      "processedIds"
      = some (Json.obj (m.map (fun kv => (kv.1, Json.arr (kv.2.map Json.str))))) := by
    simp [lookupLast]
  unfold jsonOfCheckpoint
  rw [load_parsed_eq, loadFromData_obj_eq, hlook, loadFromLookup_some_eq,
    loadFromSection_obj_eq, entriesToBuckets_mapped]

theorem startupState_jsonOfCheckpoint (m : List (String × List String))
    (corpus0 : List Paper) :
    startupState (CheckpointFile.parsed (jsonOfCheckpoint m)) corpus0 =
      Except.ok
        { newest_val := INITIAL_DATE
          pending_newest_val := INITIAL_DATE
          processed_ids_by_date := m
          all_processed_ids := unionValues m
          corpus := corpus0
          saved := m } := by
  unfold startupState
  rw [load_jsonOfCheckpoint]

theorem restartFrom_eq (st : EngineState) :
    restartFrom st =
      { newest_val := INITIAL_DATE
        pending_newest_val := INITIAL_DATE
        processed_ids_by_date := st.saved
        all_processed_ids := unionValues st.saved
        corpus := st.corpus
        saved := st.saved } := by
  unfold restartFrom
  rw [startupState_jsonOfCheckpoint]

/-- Claim C6: a fetched record whose `publicationDate` is present and parses
as a date strictly later than the wall-clock current day is dropped by the
record filter: the engine state — in particular the corpus and
`pending_newest_val` — is unchanged by it. -/
theorem future_record_dropped (today : Date) (st : EngineState) (p : Paper)
    (pd : String) (hpd : p.publicationDate = some pd)
    (d : Date) (hparse : parseDate pd = some d) (hfut : dateLt today d) :
    processPaper today st p = st := by
  unfold processPaper
  cases hid : p.paperId with
  | none => rfl
  | some pid =>
    by_cases h1 : pid = ""
    · simp [h1]
    · by_cases h2 : pid ∈ st.all_processed_ids
      · simp [h1, h2]
      · have hne : pd ≠ "" := by
          intro h
          rw [h, parseDate_empty] at hparse
          exact Option.noConfusion hparse
        have hf : is_future_date today pd = true := by
          simp [is_future_date, hparse, hfut]
        simp [h1, h2, hpd, optTruthy, hne, hf]

/-- Witness for claim C6: a record dated 2025-01-01, with the clock at
2024-01-03, leaves the engine state untouched. -/
theorem future_record_dropped_witness :
    parseDate "2025-01-01" = some ⟨2025, 1, 1⟩ ∧
    dateLt ⟨2024, 1, 3⟩ ⟨2025, 1, 1⟩ ∧
    processPaper ⟨2024, 1, 3⟩ freshState
      { paperId := some "x", publicationDate := some "2025-01-01" } = freshState :=
  ⟨by decide, by decide,
    future_record_dropped ⟨2024, 1, 3⟩ freshState
      { paperId := some "x", publicationDate := some "2025-01-01" }
      "2025-01-01" rfl ⟨2025, 1, 1⟩ (by decide) (by decide)⟩

/-- Claim C9: a fetched record with a fresh, nonempty identifier and an
absent (missing or JSON-null) `publicationDate` is appended to the corpus,
its id is recorded under the `"unknown"` key of the per-date map and in the
global id set, and `pending_newest_val` is unchanged. -/
theorem absent_date_record_appended (today : Date) (st : EngineState) (p : Paper)
    (pid : String) (hid : p.paperId = some pid) (hne : pid ≠ "")
    (hmem : pid ∉ st.all_processed_ids) (hpd : p.publicationDate = none) :
    (processPaper today st p).corpus = st.corpus ++ [p] ∧
    (processPaper today st p).all_processed_ids = pid :: st.all_processed_ids ∧
    pid ∈ lookupBucket (processPaper today st p).processed_ids_by_date "unknown" ∧
    (processPaper today st p).pending_newest_val = st.pending_newest_val := by
  unfold processPaper
  rw [hid]
  refine ⟨?_, ?_, ?_, ?_⟩ <;>
    simp [hne, hmem, hpd, optTruthy, appendPaper, mem_addToDate_self]

/-- Witness for claim C9: a record with id `y` and no publication date is
appended and filed under `"unknown"`. -/
theorem absent_date_record_appended_witness :
    (some "y" : Option String) = some "y" ∧ "y" ≠ "" ∧
    "y" ∉ freshState.all_processed_ids ∧
    ((processPaper ⟨2024, 1, 3⟩ freshState
        { paperId := some "y", publicationDate := none }).corpus
      = freshState.corpus ++ [{ paperId := some "y", publicationDate := none }] ∧
     (processPaper ⟨2024, 1, 3⟩ freshState
        { paperId := some "y", publicationDate := none }).all_processed_ids
      = "y" :: freshState.all_processed_ids ∧
     "y" ∈ lookupBucket (processPaper ⟨2024, 1, 3⟩ freshState
        { paperId := some "y", publicationDate := none }).processed_ids_by_date "unknown" ∧
     (processPaper ⟨2024, 1, 3⟩ freshState
        { paperId := some "y", publicationDate := none }).pending_newest_val
      = freshState.pending_newest_val) :=
  ⟨rfl, by decide, by decide,
    absent_date_record_appended ⟨2024, 1, 3⟩ freshState
      { paperId := some "y", publicationDate := none } "y" rfl (by decide) (by decide) rfl⟩

theorem disjointL_setRemove_left (a b : List String) (x : String)
    (h : disjointL a b) : disjointL (setRemove a x) b := by
  intro y hy
  exact h y (List.mem_of_mem_filter hy)

theorem disjointL_setRemove_right (a b : List String) (x : String)
    (h : disjointL a b) : disjointL a (setRemove b x) := by
  intro y hy hy2
  exact h y hy (List.mem_of_mem_filter hy2)

theorem disjointL_setAdd_setRemove (a b : List String) (x : String)
    (h : disjointL a b) : disjointL (setAdd a x) (setRemove b x) := by
  intro y hy hy2
  rcases List.mem_filter.mp hy2 with ⟨hyb, hyx⟩
  unfold setAdd at hy
  by_cases hxa : x ∈ a
  · rw [if_pos hxa] at hy
    exact h y hy hyb
  · rw [if_neg hxa] at hy
    rcases List.mem_cons.mp hy with h' | h'
    · rw [h'] at hyx
      simp at hyx
    · exact h y h' hyb

theorem disjointL_setRemove_setAdd (a b : List String) (x : String)
    (h : disjointL a b) : disjointL (setRemove a x) (setAdd b x) := by
  intro y hy hy2
  rcases List.mem_filter.mp hy with ⟨hya, hyx⟩
  unfold setAdd at hy2
  by_cases hxb : x ∈ b
  · rw [if_pos hxb] at hy2
    exact h y hya hy2
  · rw [if_neg hxb] at hy2
    rcases List.mem_cons.mp hy2 with h' | h'
    · rw [h'] at hyx
      simp at hyx
    · exact h y hya h'

theorem applyOpData_invariant (d : UserData) (op : PrefOp)
    (hinv : prefInvariant d) : prefInvariant (applyOpData d op).1 := by
  rcases hinv with ⟨h1, h2⟩
  cases op with
  | bookmark pid =>
    unfold applyOpData toggle_bookmark
    by_cases h : pid ∈ d.bookmarks <;> simp [h, prefInvariant] <;> exact ⟨h1, h2⟩
  | download pid =>
    unfold applyOpData toggle_download
    by_cases h : pid ∈ d.downloads <;> simp [h, prefInvariant] <;> exact ⟨h1, h2⟩
  | showMore pid =>
    unfold applyOpData toggle_show_more
    by_cases h : pid ∈ d.show_more <;> simp [h, prefInvariant]
    · exact ⟨disjointL_setRemove_left _ _ _ h1, h2⟩
    · exact ⟨disjointL_setAdd_setRemove _ _ _ h1, h2⟩
  | showLess pid =>
    unfold applyOpData toggle_show_less
    by_cases h : pid ∈ d.show_less <;> simp [h, prefInvariant]
    · exact ⟨disjointL_setRemove_right _ _ _ h1, h2⟩
    · exact ⟨disjointL_setRemove_setAdd _ _ _ h1, h2⟩
  | followAuthor aid =>
    unfold applyOpData toggle_follow_author
    by_cases h : aid ∈ d.followed_authors <;> simp [h, prefInvariant]
    · exact ⟨h1, disjointL_setRemove_left _ _ _ h2⟩
    · exact ⟨h1, disjointL_setAdd_setRemove _ _ _ h2⟩
  | blockAuthor aid =>
    unfold applyOpData toggle_block_author
    by_cases h : aid ∈ d.blocked_authors <;> simp [h, prefInvariant]
    · exact ⟨h1, disjointL_setRemove_right _ _ _ h2⟩
    · exact ⟨h1, disjointL_setRemove_setAdd _ _ _ h2⟩

theorem getUser_putUser (st : UserPrefs) (uid : String) (d : UserData) (uid' : String) :
    getUser (putUser st uid d) uid' = if uid' = uid then d else getUser st uid' := by
  induction st with
  | nil =>
    by_cases h : uid' = uid
    · simp [putUser, getUser, List.find?, h]
    · have h2 : ¬ (uid = uid') := fun he => h he.symm
      simp [putUser, getUser, List.find?, h, h2]
  | cons kv rest ih =>
    by_cases hk : kv.1 = uid
    · simp only [putUser, hk, if_pos]
      by_cases h : uid' = uid
      · simp [getUser, List.find?, h]
      · have : ¬ (uid = uid') := fun he => h he.symm
        simp [getUser, List.find?, h, this, hk]
    · simp only [putUser, hk, if_neg, ite_false]
      by_cases h : kv.1 = uid'
      · have h2 : ¬ (uid' = uid) := fun he => hk (h.trans he)
        simp [getUser, List.find?, h, h2]
      · simp only [getUser, List.find?] at *
        simp [h, ih]

/-- Claim C10: every `UserPreferences` toggle operation, applied to any
user, preserves the invariants that `show_more` and `show_less` are
disjoint and that `followed_authors` and `blocked_authors` are disjoint,
for every user. -/
theorem toggle_preserves_disjointness (st : UserPrefs) (uid : String) (op : PrefOp)
    (hinv : prefsInvariant st) : prefsInvariant (applyOp st uid op).1 := by
  intro uid'
  unfold applyOp
  simp only
  rw [getUser_putUser]
  by_cases h : uid' = uid
  · rw [if_pos h]
    exact applyOpData_invariant (getUser st uid) op (hinv uid)
  · rw [if_neg h]
    exact hinv uid'

/-- Witness for claim C10: toggling `show_more` for paper `p` of user `u`
on the empty store keeps every user's preference sets disjoint. -/
theorem toggle_preserves_disjointness_witness :
    prefsInvariant ([] : UserPrefs) ∧
    prefsInvariant (applyOp ([] : UserPrefs) "u" (PrefOp.showMore "p")).1 := by
  have h0 : prefsInvariant ([] : UserPrefs) := by
    intro uid
    constructor <;> intro x hx <;> simp [getUser, emptyUserData, List.find?] at hx
  exact ⟨h0, toggle_preserves_disjointness [] "u" (PrefOp.showMore "p") h0⟩

/-- The failure paths src/main.py does handle: a missing file, an
`OSError` on read, a JSON decode failure, and the three `isinstance`
checks (non-dict top level, missing `processedIds` key, non-dict value)
all return the empty structures, so on those inputs startup proceeds from
`INITIAL_DATE` with an empty dedupe scope and no exception. -/
theorem caught_failures_start_fresh (file : CheckpointFile) (corpus0 : List Paper)
    (hbad : file = CheckpointFile.missing ∨ file = CheckpointFile.unreadable ∨
      file = CheckpointFile.notJson ∨
      ∃ j, file = CheckpointFile.parsed j ∧ failsValidation j) :
    load_all_processed_ids file = Except.ok ([], []) ∧
    startupState file corpus0 =
      Except.ok
        { newest_val := INITIAL_DATE
          pending_newest_val := INITIAL_DATE
          processed_ids_by_date := []
          all_processed_ids := []
          corpus := corpus0
          saved := [] } := by
  have hload : load_all_processed_ids file = Except.ok ([], []) := by
    rcases hbad with h | h | h | ⟨j, hj, hv⟩
    · rw [h]; rfl
    · rw [h]; rfl
    · rw [h]; rfl
    · rw [hj]
      cases j with
      | null => rfl
      | bool b => rfl
      | num n => rfl
      | str s => rfl
      | arr xs => rfl
      | obj fields =>
        rw [failsValidation_obj_eq] at hv
        rw [load_parsed_eq, loadFromData_obj_eq]
        cases hlook : lookupLast fields "processedIds" with
        | none => rfl
        | some v =>
          rw [hlook] at hv
          cases v with
          | null => rfl
          | bool b => rfl
          | num n => rfl
          | str s => rfl
          | arr xs => rfl
          | obj entries => exact (show False from hv).elim
  refine ⟨hload, ?_⟩
  unfold startupState
  rw [hload]

/-- Claim C3 (code bug): the claim — like spec sections 4.1 and 7c and the
docstring of `load_all_processed_ids` itself ("If file does not exist or
is invalid, returns empty structures") — says an invalid checkpoint yields
a fresh start with no exception escaping startup.  The code violates this:
the valid-JSON checkpoint `{"processedIds": {"2024-01-01": [["x"]]}}`
passes every `isinstance` check (it does not fail the code's structural
validation), and then `set(id_list)` at src/main.py line 78 raises a
`TypeError` that the `except (json.JSONDecodeError, OSError)` clause does
not catch, so startup crashes; likewise a non-UTF-8 checkpoint file makes
`json.load` raise an uncaught `UnicodeDecodeError`. -/
theorem malformed_bucket_crashes_startup :
    ¬ failsValidation
        (Json.obj [("processedIds",
          Json.obj [("2024-01-01", Json.arr [Json.arr [Json.str "x"]])])]) ∧
    load_all_processed_ids (CheckpointFile.parsed
        (Json.obj [("processedIds",
          Json.obj [("2024-01-01", Json.arr [Json.arr [Json.str "x"]])])]))
      = Except.error PyError.typeError ∧
    startupState (CheckpointFile.parsed
        (Json.obj [("processedIds",
          Json.obj [("2024-01-01", Json.arr [Json.arr [Json.str "x"]])])])) []
      = Except.error PyError.typeError ∧
    load_all_processed_ids CheckpointFile.notUtf8
      = Except.error PyError.unicodeDecodeError := by
  refine ⟨?_, rfl, rfl, rfl⟩
  rw [failsValidation_obj_eq]
  have hl : lookupLast
      [("processedIds", Json.obj [("2024-01-01", Json.arr [Json.arr [Json.str "x"]])])]
      "processedIds"
      = some (Json.obj [("2024-01-01", Json.arr [Json.arr [Json.str "x"]])]) := by
    simp [lookupLast]
  rw [hl]
  intro h
  exact h

theorem serializeCheckpoint_ne_empty (m : List (String × List String)) :
    serializeCheckpoint m ≠ "" := by
  intro h
  have hd := congrArg String.data h
  unfold serializeCheckpoint at hd
  simp only [String.data_append] at hd
  rcases List.append_eq_nil.mp hd with ⟨hd1, _⟩
  rcases List.append_eq_nil.mp hd1 with ⟨hd2, _⟩
  exact absurd hd2 (by decide)

/-- Counterexample for claim C4: the checkpoint write of
`save_all_processed_ids` (plain `open(..., "w")` followed by `json.dump`)
is not atomic with respect to process crash: between the old content and
the new content the truncated empty file is observable, which is neither. -/
theorem checkpoint_save_not_atomic :
    ¬ atomicWrt (serializeCheckpoint [("2024-01-01", ["a"])])
      (serializeCheckpoint [("2024-01-02", ["b"])]) := by
  intro h
  have hmem : "" ∈ saveObservableContents (serializeCheckpoint [("2024-01-02", ["b"])]) := by
    unfold saveObservableContents
    refine List.mem_map.mpr ⟨0, List.mem_range.mpr (by omega), rfl⟩
  rcases h "" hmem with h' | h'
  · exact serializeCheckpoint_ne_empty [("2024-01-01", ["a"])] h'.symm
  · exact serializeCheckpoint_ne_empty [("2024-01-02", ["b"])] h'.symm

/-- Claim C4 (amended): `save_all_processed_ids` rewrites
`processed_ids.json` in place — truncate, then stream the new JSON — with
no write-temp-then-rename step, so a crash during save can leave the file
truncated (for instance empty), a content that is neither the previous nor
the new checkpoint; the write is not atomic with respect to process
crash.  (On the next startup `load_all_processed_ids` treats such a
corrupted file as no checkpoint and starts with an empty dedupe scope.) -/
theorem checkpoint_save_in_place (old : String) (by_date : List (String × List String))
    (hold : old ≠ "") :
    "" ∈ saveObservableContents (serializeCheckpoint by_date) ∧
    ¬ atomicWrt old (serializeCheckpoint by_date) := by
  have hmem : "" ∈ saveObservableContents (serializeCheckpoint by_date) := by
    unfold saveObservableContents
    refine List.mem_map.mpr ⟨0, List.mem_range.mpr (by omega), rfl⟩
  refine ⟨hmem, ?_⟩
  intro h
  rcases h "" hmem with h' | h'
  · exact hold h'.symm
  · exact serializeCheckpoint_ne_empty by_date h'.symm

/-- Witness for claim C4's amended statement: with previous content `x` and
a one-entry map, the truncated empty file is observable and the write is
not atomic. -/
theorem checkpoint_save_in_place_witness :
    ("x" : String) ≠ "" ∧
    ("" ∈ saveObservableContents (serializeCheckpoint [("2024-01-02", ["b"])]) ∧
     ¬ atomicWrt "x" (serializeCheckpoint [("2024-01-02", ["b"])])) :=
  ⟨by decide, checkpoint_save_in_place "x" [("2024-01-02", ["b"])] (by decide)⟩

/-- Counterexample for claim C2: in the promotion scenario (cursor
`2024-01-01`, empty id set, one fetched record `p1` dated `2024-01-02`,
then a promotion tick) the corpus does gain exactly one line for `p1` and
the committed cursor does become `2024-01-02`, but the persisted id-set is
NOT reset to empty: `processed_ids.json` still holds `p1`. -/
theorem scenario_persisted_set_not_reset :
    scenarioFinal.corpus = [paperP1] ∧
    scenarioFinal.newest_val = "2024-01-02" ∧
    scenarioFinal.saved ≠ [] := by decide

/-- Claim C2 (amended): in the scenario the corpus gains exactly one line
for `p1` and after the promotion tick the committed cursor becomes
`2024-01-02`, but the engine follows the accumulated policy: promotion
never resets the dedupe scope, and the persisted map keeps `p1` filed
under `2024-01-02`. -/
theorem scenario_promotion_accumulated :
    scenarioFinal =
      { newest_val := "2024-01-02"
        pending_newest_val := "2024-01-02"
        processed_ids_by_date := [("2024-01-02", ["p1"])]
        all_processed_ids := ["p1"]
        corpus := [paperP1]
        saved := [("2024-01-02", ["p1"])] } := by decide

/-- Claim C8: the trace of page-fetch requests agrees with the plain run,
and every request issued by the loop embeds the committed cursor
(`newest_val` as of that iteration, after the promotion check) as the
date-range lower bound — never the pending cursor: whenever the pending
value differs from the committed one, the lower bound differs from it. -/
theorem requests_use_committed_cursor (today : Date) (today_str : String) :
    ∀ (its : List Iteration) (st : EngineState),
      (runEngineObs today today_str st its).1 = runEngine today st its ∧
      ∀ req ∈ (runEngineObs today today_str st its).2,
        req.url = build_url today_str req.cursor_at ∧
        req.start_date = req.cursor_at ∧
        (req.pending_at ≠ req.cursor_at → req.start_date ≠ req.pending_at) := by
  intro its
  induction its with
  | nil =>
    intro st
    refine ⟨rfl, ?_⟩
    intro req hreq
    simp [runEngineObs] at hreq
  | cons it rest ih =>
    intro st
    constructor
    · show (runEngineObs today today_str
          (runPages today (if it.promote then promoteTick st else st) it.pages) rest).1
        = runEngine today st (it :: rest)
      rw [(ih _).1]
      rfl
    · intro req hreq
      unfold runEngineObs at hreq
      simp only [List.mem_cons] at hreq
      rcases hreq with h | h
      · subst h
        refine ⟨rfl, rfl, ?_⟩
        intro hne he
        exact hne he.symm
      · exact (ih _).2 req h

set_option maxRecDepth 8192 in
/-- Witness for claim C8: with committed cursor `2024-01-01` and pending
cursor `2024-01-05`, the single issued request uses `2024-01-01`. -/
theorem requests_use_committed_cursor_witness :
    ({ url := build_url "2024-01-06" "2024-01-01"
       start_date := "2024-01-01"
       cursor_at := "2024-01-01"
       pending_at := "2024-01-05" } : FetchRequest)
      ∈ (runEngineObs ⟨2024, 1, 6⟩ "2024-01-06"
          { newest_val := "2024-01-01"
            pending_newest_val := "2024-01-05"
            processed_ids_by_date := []
            all_processed_ids := []
            corpus := []
            saved := [] }
          [{ promote := false, pages := [] }]).2 ∧
    ({ url := build_url "2024-01-06" "2024-01-01"
       start_date := "2024-01-01"
       cursor_at := "2024-01-01"
       pending_at := "2024-01-05" } : FetchRequest).start_date
      = ({ url := build_url "2024-01-06" "2024-01-01"
           start_date := "2024-01-01"
           cursor_at := "2024-01-01"
           pending_at := "2024-01-05" } : FetchRequest).cursor_at :=
  ⟨by decide,
    ((requests_use_committed_cursor ⟨2024, 1, 6⟩ "2024-01-06"
        [{ promote := false, pages := [] }]
        { newest_val := "2024-01-01"
          pending_newest_val := "2024-01-05"
          processed_ids_by_date := []
          all_processed_ids := []
          corpus := []
          saved := [] }).2 _ (by decide)).2.1⟩

theorem promoteTick_inv (st : EngineState) (n p : Date)
    (hn : parseDate st.newest_val = some n)
    (hp : parseDate st.pending_newest_val = some p) (hle : dateLe n p) :
    ∃ n1, parseDate (promoteTick st).newest_val = some n1 ∧
      (promoteTick st).pending_newest_val = st.pending_newest_val ∧
      dateLe n n1 ∧ dateLe n1 p := by
  unfold promoteTick
  by_cases h : st.pending_newest_val ≠ st.newest_val
  · rw [if_pos h]
    exact ⟨p, hp, rfl, hle, dateLe_refl p⟩
  · rw [if_neg h]
    exact ⟨n, hn, rfl, dateLe_refl n, hle⟩

theorem runIteration_inv (today : Date) (st : EngineState) (it : Iteration) (n p : Date)
    (hn : parseDate st.newest_val = some n)
    (hp : parseDate st.pending_newest_val = some p) (hle : dateLe n p) :
    ∃ n1 p1, parseDate (runIteration today st it).newest_val = some n1 ∧
      parseDate (runIteration today st it).pending_newest_val = some p1 ∧
      dateLe n n1 ∧ dateLe n1 p1 := by
  unfold runIteration
  cases hpr : it.promote with
  | false =>
    simp only [Bool.false_eq_true, if_false]
    have hnw := runPages_newest today it.pages st
    rcases runPages_pending_mono today it.pages st p hp with ⟨p1, hp1, hle1⟩
    exact ⟨n, p1, by rw [hnw]; exact hn, hp1, dateLe_refl n, dateLe_trans hle hle1⟩
  | true =>
    simp only [if_true]
    rcases promoteTick_inv st n p hn hp hle with ⟨n1, hn1, hpend1, hle1, hle2⟩
    have hnw := runPages_newest today it.pages (promoteTick st)
    have hp1 : parseDate (promoteTick st).pending_newest_val = some p := by
      rw [hpend1]; exact hp
    rcases runPages_pending_mono today it.pages (promoteTick st) p hp1 with ⟨p2, hp2, hle3⟩
    exact ⟨n1, p2, by rw [hnw]; exact hn1, hp2, hle1, dateLe_trans hle2 hle3⟩

theorem runEngine_inv (today : Date) :
    ∀ (its : List Iteration) (st : EngineState) (n p : Date),
      parseDate st.newest_val = some n →
      parseDate st.pending_newest_val = some p →
      dateLe n p →
      ∃ n' p', parseDate (runEngine today st its).newest_val = some n' ∧
        parseDate (runEngine today st its).pending_newest_val = some p' ∧
        dateLe n n' ∧ dateLe n' p' := by
  intro its
  induction its with
  | nil =>
    intro st n p hn hp hle
    exact ⟨n, p, hn, hp, dateLe_refl n, hle⟩
  | cons it rest ih =>
    intro st n p hn hp hle
    unfold runEngine at *
    rw [List.foldl_cons]
    rcases runIteration_inv today st it n p hn hp hle with ⟨n1, p1, hn1, hp1, hle1, hle2⟩
    rcases ih (runIteration today st it) n1 p1 hn1 hp1 hle2 with ⟨n', p', h1, h2, h3, h4⟩
    exact ⟨n', p', h1, h2, dateLe_trans hle1 h3, h4⟩

/-- Claim C5: the committed cursor is non-decreasing over any run.  From a
state whose committed and pending cursors parse and satisfy
`newest ≤ pending` (as they do at startup, where both equal
`INITIAL_DATE`), running any split of a run into two stages gives cursor
values `n ≤ n1 ≤ n2`: promotion only ever installs a pending value that is
at least the committed one, and nothing but promotion writes `newest_val`. -/
theorem cursor_nondecreasing (today : Date) (st : EngineState) (n p : Date)
    (hn : parseDate st.newest_val = some n)
    (hp : parseDate st.pending_newest_val = some p)
    (hle : dateLe n p) (its1 its2 : List Iteration) :
    runEngine today st (its1 ++ its2)
      = runEngine today (runEngine today st its1) its2 ∧
    ∃ n1 n2, parseDate (runEngine today st its1).newest_val = some n1 ∧
      parseDate (runEngine today (runEngine today st its1) its2).newest_val = some n2 ∧
      dateLe n n1 ∧ dateLe n1 n2 := by
  constructor
  · unfold runEngine
    exact List.foldl_append _ _ its1 its2
  · rcases runEngine_inv today its1 st n p hn hp hle with ⟨n1, p1, h1, h2, h3, h4⟩
    rcases runEngine_inv today its2 (runEngine today st its1) n1 p1 h1 h2 h4 with
      ⟨n2, p2, g1, g2, g3, g4⟩
    exact ⟨n1, n2, h1, g1, h3, g3⟩

/-- Witness for claim C5: starting at cursor `2024-01-01`, a fetch of `p1`
followed by a promotion tick yields non-decreasing committed cursors. -/
theorem cursor_nondecreasing_witness :
    parseDate "2024-01-01" = some ⟨2024, 1, 1⟩ ∧ dateLe ⟨2024, 1, 1⟩ ⟨2024, 1, 1⟩ ∧
    (runEngine ⟨2024, 1, 3⟩ freshState
        ([{ promote := false, pages := [[paperP1]] }] ++ [{ promote := true, pages := [] }])
      = runEngine ⟨2024, 1, 3⟩
          (runEngine ⟨2024, 1, 3⟩ freshState [{ promote := false, pages := [[paperP1]] }])
          [{ promote := true, pages := [] }] ∧
     ∃ n1 n2,
      parseDate (runEngine ⟨2024, 1, 3⟩ freshState
        [{ promote := false, pages := [[paperP1]] }]).newest_val = some n1 ∧
      parseDate (runEngine ⟨2024, 1, 3⟩
        (runEngine ⟨2024, 1, 3⟩ freshState [{ promote := false, pages := [[paperP1]] }])
        [{ promote := true, pages := [] }]).newest_val = some n2 ∧
      dateLe ⟨2024, 1, 1⟩ n1 ∧ dateLe n1 n2) :=
  ⟨by decide, by decide,
    cursor_nondecreasing ⟨2024, 1, 3⟩ freshState ⟨2024, 1, 1⟩ ⟨2024, 1, 1⟩
      (by decide) (by decide) (by decide)
      [{ promote := false, pages := [[paperP1]] }] [{ promote := true, pages := [] }]⟩

/-- Claim C1: over any sequence of fetched pages, (i) the records appended
to the corpus have pairwise-distinct identifiers and none of them was
already in the dedupe scope (`all_processed_ids`), so an id in scope is
never appended a second time; and (ii) restarting from the persisted
checkpoint (`restartFrom`, which reloads `processed_ids.json` exactly as
startup does) and re-running the identical fetch sequence is a no-op: the
state — in particular the corpus — is unchanged, i.e. zero additional
corpus appends.  The hypotheses hold at every real startup state: the
pending cursor is the parseable `INITIAL_DATE`, and the id set and the
persisted map come from the same load. -/
theorem dedupe_at_most_once (today : Date) (st : EngineState) (pages : List (List Paper))
    (hpend : (parseDate st.pending_newest_val).isSome)
    (hsub : ∀ x ∈ st.all_processed_ids, x ∈ unionValues st.processed_ids_by_date)
    (hsync : st.saved = st.processed_ids_by_date) :
    ∃ delta,
      (runPages today st pages).corpus = st.corpus ++ delta ∧
      (delta.filterMap Paper.paperId).Nodup ∧
      (∀ i ∈ delta.filterMap Paper.paperId, i ∉ st.all_processed_ids) ∧
      runPages today (restartFrom (runPages today st pages)) pages
        = restartFrom (runPages today st pages) ∧
      (runPages today (restartFrom (runPages today st pages)) pages).corpus
        = (runPages today st pages).corpus := by
  rcases runPages_appends today pages st with ⟨delta, hc, hnd, hfresh, hmem⟩
  have hfix : runPages today (restartFrom (runPages today st pages)) pages
      = restartFrom (runPages today st pages) := by
    apply runPages_fixpoint
    · rw [restartFrom_eq]
    · intro pg hpg q hq pid hid hacc
      have h1 : pid ∈ (runPages today st pages).all_processed_ids :=
        runPages_accepted_mem today pages st hpend pg hpg q hq pid hid hacc
      have h2 : pid ∈ unionValues (runPages today st pages).processed_ids_by_date :=
        runPages_subset_inv today pages st hsub pid h1
      have h3 : (runPages today st pages).saved
          = (runPages today st pages).processed_ids_by_date :=
        runPages_saved_sync today pages st hsync
      show pid ∈ (restartFrom (runPages today st pages)).all_processed_ids
      rw [restartFrom_eq]
      show pid ∈ unionValues (runPages today st pages).saved
      rw [h3]
      exact h2
  refine ⟨delta, hc, hnd, hfresh, hfix, ?_⟩
  rw [hfix, restartFrom_eq]

/-- Witness for claim C1: the same record delivered on two successive pages
is appended once, and the replay after restarting from the persisted
checkpoint appends nothing. -/
theorem dedupe_at_most_once_witness :
    (parseDate freshState.pending_newest_val).isSome ∧
    (∀ x ∈ freshState.all_processed_ids,
      x ∈ unionValues freshState.processed_ids_by_date) ∧
    freshState.saved = freshState.processed_ids_by_date ∧
    ∃ delta,
      (runPages ⟨2024, 1, 3⟩ freshState [[paperP1], [paperP1]]).corpus
        = freshState.corpus ++ delta ∧
      (delta.filterMap Paper.paperId).Nodup ∧
      (∀ i ∈ delta.filterMap Paper.paperId, i ∉ freshState.all_processed_ids) ∧
      runPages ⟨2024, 1, 3⟩
          (restartFrom (runPages ⟨2024, 1, 3⟩ freshState [[paperP1], [paperP1]]))
          [[paperP1], [paperP1]]
        = restartFrom (runPages ⟨2024, 1, 3⟩ freshState [[paperP1], [paperP1]]) ∧
      (runPages ⟨2024, 1, 3⟩
          (restartFrom (runPages ⟨2024, 1, 3⟩ freshState [[paperP1], [paperP1]]))
          [[paperP1], [paperP1]]).corpus
        = (runPages ⟨2024, 1, 3⟩ freshState [[paperP1], [paperP1]]).corpus :=
  ⟨by decide, by decide, by decide,
    dedupe_at_most_once ⟨2024, 1, 3⟩ freshState [[paperP1], [paperP1]]
      (by decide) (by decide) (by decide)⟩
